import Mathlib

/-!
Shallow embedding of the carpool-assignment core of `src/App.tsx`
(YG99999/Carpool). The embedded pieces are:

* the data model (`Player`, `Driver`, `Eligibility`, `EventAttendance`,
  `EventDriver`, `Assignment`) from the TypeScript interfaces;
* the eligibility resolver `isAllowed` / `getPreference` (App.tsx 672-680);
* the capacity-bucket construction (App.tsx 683-688);
* the greedy generator `generateCarpool` (App.tsx 649-754), with the
  `Math.random`-based `generateId` modelled as an explicit stream of
  fresh identifiers `ids : Nat → ID` consumed in order, the JavaScript
  stable `Array.prototype.sort` modelled by `List.mergeSort` (which is
  stable) on the boolean comparator of App.tsx line 693, and the
  `alert`+early-return on an empty driver set modelled as an `Except`
  error value;
* the per-event driver toggle `toggleDriver` for the `isDriving` field
  (App.tsx 628-645), which seeds a fresh availability record with the
  driver's global seat maxima;
* the manual-override drop handler `handleDrop` (App.tsx 888-909),
  acting on the event-local assignment list (the `assignments` prop is
  filtered to the event in `navigateToEvent`, App.tsx 249).

Seat counts are JavaScript numbers; they are embedded as `Int` so that
no non-negativity is baked into the types.
-/

abbrev ID := String

inductive Direction where
  | to
  | from_
  | both
deriving DecidableEq, Repr

inductive Preference where
  | none
  | prefer
  | always
deriving DecidableEq, Repr

structure Player where
  id : ID
  name : String
  teamName : String
  grade : String
  needsChildSeat : Bool
  groupIds : List ID
deriving DecidableEq, Repr

structure Driver where
  id : ID
  name : String
  hasLicense : Bool
  maxSeatsTotal : Int
  maxChildSeats : Int
  notes : String
deriving DecidableEq, Repr

structure Eligibility where
  driverId : ID
  playerId : ID
  allowed : Bool
  preference : Preference
deriving DecidableEq, Repr

structure EventAttendance where
  eventId : ID
  playerId : ID
  isGoing : Bool
  needsRide : Bool
deriving DecidableEq, Repr

structure EventDriver where
  eventId : ID
  driverId : ID
  isDriving : Bool
  direction : Direction
  availableSeatsTotal : Int
  availableChildSeats : Int
  notes : String
deriving DecidableEq, Repr

structure Assignment where
  id : ID
  eventId : ID
  driverId : ID
  playerId : ID
  direction : Direction
deriving DecidableEq, Repr

/-- App.tsx 672-675: first matching rule decides `allowed`; no rule means
allowed by default. -/
def isAllowed (allEligibility : List Eligibility) (did pid : ID) : Bool :=
  match allEligibility.find? (fun e => e.driverId == did && e.playerId == pid) with
  | some rule => rule.allowed
  | none => true

/-- App.tsx 677-680: first matching rule decides `preference`; no rule
means `'none'`. -/
def getPreference (allEligibility : List Eligibility) (did pid : ID) : Preference :=
  match allEligibility.find? (fun e => e.driverId == did && e.playerId == pid) with
  | some rule => rule.preference
  | none => Preference.none

/-- A capacity bucket (App.tsx 683-688): the spread copy of the
availability record plus the mutable counters and the assigned list. -/
structure Bucket where
  ev : EventDriver
  remainingSeats : Int
  remainingChildSeats : Int
  assignedPlayerIds : List ID
deriving DecidableEq, Repr

def Bucket.driverId (b : Bucket) : ID := b.ev.driverId

/-- App.tsx 683-688: `remainingSeats`/`remainingChildSeats` are copied
from the availability record's `availableSeatsTotal`/`availableChildSeats`. -/
def mkBucket (d : EventDriver) : Bucket :=
  { ev := d
    remainingSeats := d.availableSeatsTotal
    remainingChildSeats := d.availableChildSeats
    assignedPlayerIds := [] }

/-- App.tsx 651-654: players whose attendance record for the event has
`isGoing && needsRide`. -/
def goingPlayers (allPlayers : List Player) (localAttendance : List EventAttendance) :
    List Player :=
  allPlayers.filter (fun p =>
    match localAttendance.find? (fun a => a.playerId == p.id) with
    | some att => att.isGoing && att.needsRide
    | none => false)

/-- App.tsx 656: availability records with `isDriving`. -/
def activeDrivers (localEventDrivers : List EventDriver) : List EventDriver :=
  localEventDrivers.filter (fun d => d.isDriving)

/-- The comparator of App.tsx 693, `(a,b) => a.needsChildSeat === b.needsChildSeat
? 0 : a.needsChildSeat ? -1 : 1`, turned into the `le` relation
`cmp a b ≤ 0` used by a stable sort. -/
def childSeatLE (a b : Player) : Bool :=
  a.needsChildSeat || !b.needsChildSeat

/-- App.tsx 693: `[...goingPlayers].sort(...)`. JavaScript
`Array.prototype.sort` is stable (ECMA-262), so it is embedded as the
stable `List.mergeSort` on the comparator's `le` relation. -/
def sortPlayers (l : List Player) : List Player :=
  l.mergeSort childSeatLE

/-- The three feasibility guards of App.tsx 701-703 (early `return`s of
the `forEach` body, negated). -/
def bucketFeasible (rules : List Eligibility) (player : Player) (b : Bucket) : Bool :=
  !(b.remainingSeats ≤ 0) &&
  !(player.needsChildSeat && b.remainingChildSeats ≤ 0) &&
  isAllowed rules b.driverId player.id

/-- App.tsx 706-709: base score 10, then `+50` when preference is
`always` and `+20` when it is `prefer` (two independent `if`s, as in the
source). -/
def bucketScore (rules : List Eligibility) (player : Player) (b : Bucket) : Int :=
  let score : Int := 10
  let pref := getPreference rules b.driverId player.id
  let score := if pref = Preference.always then score + 50 else score
  let score := if pref = Preference.prefer then score + 20 else score
  score

/-- The `buckets.forEach((bucket, idx) => ...)` loop of App.tsx 700-720:
walks the bucket list with its index, skipping infeasible buckets and
updating `(bestDriverIndex, bestScore)` when the score strictly exceeds
the best so far. -/
def bestLoop (rules : List Eligibility) (player : Player) :
    List Bucket → Nat → Int × Int → Int × Int
  | [], _, best => best
  | b :: rest, idx, best =>
    let best' :=
      if bucketFeasible rules player b ∧ bucketScore rules player b > best.2 then
        ((idx : Int), bucketScore rules player b)
      else best
    bestLoop rules player rest (idx + 1) best'

/-- App.tsx 697-720: `bestDriverIndex`/`bestScore` both start at `-1`. -/
def findBestDriver (rules : List Eligibility) (player : Player)
    (buckets : List Bucket) : Int × Int :=
  bestLoop rules player buckets 0 (-1, -1)

/-- The scratch state of one generator pass: the bucket arena plus the
accumulated `newAssignments` and `unassignedIds` arrays, and the number
of identifiers drawn from the id stream so far. -/
structure GenState where
  buckets : List Bucket
  newAssignments : List Assignment
  unassignedIds : List ID
  ctr : Nat
deriving DecidableEq, Repr

/-- One iteration of the `for (const player of sortedPlayers)` loop
(App.tsx 695-746): pick the best driver, and either commit to that
bucket (decrement counters, push the player, emit an assignment) or emit
an `'unassigned'` record. -/
def assignStep (rules : List Eligibility) (eventId : ID) (ids : Nat → ID)
    (s : GenState) (player : Player) : GenState :=
  let best := findBestDriver rules player s.buckets
  if best.1 = -1 then
    { s with
      newAssignments := s.newAssignments ++
        [{ id := ids s.ctr, eventId := eventId, driverId := "unassigned",
           playerId := player.id, direction := Direction.both }]
      unassignedIds := s.unassignedIds ++ [player.id]
      ctr := s.ctr + 1 }
  else
    let idx := best.1.toNat
    match s.buckets[idx]? with
    | some bucket =>
      let bucket' :=
        { bucket with
          remainingSeats := bucket.remainingSeats - 1
          remainingChildSeats :=
            if player.needsChildSeat then bucket.remainingChildSeats - 1
            else bucket.remainingChildSeats
          assignedPlayerIds := bucket.assignedPlayerIds ++ [player.id] }
      { s with
        buckets := s.buckets.set idx bucket'
        newAssignments := s.newAssignments ++
          [{ id := ids s.ctr, eventId := eventId, driverId := bucket.driverId,
             playerId := player.id, direction := Direction.both }]
        ctr := s.ctr + 1 }
    | none => s

/-- The result the generator hands to its consumer: the full replacement
assignment list for the event and the unassigned ids. -/
structure GenResult where
  assignments : List Assignment
  unassignedIds : List ID
deriving DecidableEq, Repr

/-- App.tsx 658-661: the `alert('No drivers marked for this event!')`
early return, reported to the caller as an error value. -/
inductive GenError where
  | noDriversAvailable
deriving DecidableEq, Repr

/-- The whole per-candidate loop as a fold over the sorted players. -/
def runPass (rules : List Eligibility) (eventId : ID) (ids : Nat → ID)
    (players : List Player) (buckets : List Bucket) : GenState :=
  players.foldl (assignStep rules eventId ids) ⟨buckets, [], [], 0⟩

/-- App.tsx 649-754, `generateCarpool`: candidate selection, the
no-driver precondition, bucket setup, the child-seat-first sort, and the
greedy pass. Persistence (DB.set) and the UI alert are outside the core;
the emitted `newAssignments`/`unassignedIds` are returned. -/
def generateCarpool (eventId : ID) (allPlayers : List Player)
    (localAttendance : List EventAttendance)
    (localEventDrivers : List EventDriver)
    (allEligibility : List Eligibility) (ids : Nat → ID) :
    Except GenError GenResult :=
  let going := goingPlayers allPlayers localAttendance
  let active := activeDrivers localEventDrivers
  if active.length = 0 then
    Except.error GenError.noDriversAvailable
  else
    let buckets := active.map mkBucket
    let sorted := sortPlayers going
    let final := runPass allEligibility eventId ids sorted buckets
    Except.ok ⟨final.newAssignments, final.unassignedIds⟩

/-- App.tsx 628-645, `toggleDriver` for the `isDriving` field: look up
the existing availability record, or build the default one seeded with
the driver's global `maxSeatsTotal`/`maxChildSeats`; flip `isDriving`;
replace the record in the event-local list. `none` models the JavaScript
crash when neither an existing record nor the driver definition exists. -/
def toggleDriverIsDriving (allDrivers : List Driver)
    (localEventDrivers : List EventDriver) (eventId did : ID) :
    Option (List EventDriver) :=
  let existing? : Option EventDriver :=
    match localEventDrivers.find? (fun d => d.driverId == did) with
    | some e => some e
    | none =>
      (allDrivers.find? (fun d => d.id == did)).map (fun driverDef =>
        { eventId := eventId, driverId := did, isDriving := false,
          direction := Direction.both,
          availableSeatsTotal := driverDef.maxSeatsTotal,
          availableChildSeats := driverDef.maxChildSeats, notes := "" })
  existing?.map (fun existing =>
    let updated := { existing with isDriving := !existing.isDriving }
    localEventDrivers.filter (fun d => !(d.driverId == did)) ++ [updated])

/-- App.tsx 888-909, `handleDrop`: on the event-local assignment list,
drop every assignment of the dragged player, then append the new
assignment to the target driver with `direction: 'both'`. The fresh
random id is modelled as the explicit argument `newId`. -/
def handleDrop (eventId : ID) (assignments : List Assignment)
    (draggedPlayerId targetDriverId : ID) (newId : ID) : List Assignment :=
  let filtered := assignments.filter (fun a => !(a.playerId == draggedPlayerId))
  filtered ++
    [{ id := newId, eventId := eventId, driverId := targetDriverId,
       playerId := draggedPlayerId, direction := Direction.both }]

unseal List.merge List.mergeSort

instance : DecidableEq (Except GenError GenResult) := fun a b =>
  match a, b with
  | Except.error x, Except.error y =>
    if h : x = y then isTrue (by rw [h])
    else isFalse (fun heq => h (by injection heq))
  | Except.ok x, Except.ok y =>
    if h : x = y then isTrue (by rw [h])
    else isFalse (fun heq => h (by injection heq))
  | Except.error _, Except.ok _ => isFalse (fun heq => by injection heq)
  | Except.ok _, Except.error _ => isFalse (fun heq => by injection heq)

/-- C4: if no availability record has `isDriving = true`, the generator
fails with the `NoDriversAvailable` condition before processing any
candidate: the result is the error value, carrying no assignment records
(the early return of App.tsx 658-661 happens before anything is written). -/
theorem claim4_no_drivers (eventId : ID) (allPlayers : List Player)
    (localAttendance : List EventAttendance) (localEventDrivers : List EventDriver)
    (allEligibility : List Eligibility) (ids : Nat → ID)
    (h : ∀ d ∈ localEventDrivers, d.isDriving = false) :
    generateCarpool eventId allPlayers localAttendance localEventDrivers allEligibility ids =
      Except.error GenError.noDriversAvailable := by
  have hact : activeDrivers localEventDrivers = [] := by
    rw [activeDrivers, List.filter_eq_nil_iff]
    intro d hd
    simp [h d hd]
  simp [generateCarpool, hact]

theorem claim4_witness :
    (∀ d ∈ ([] : List EventDriver), d.isDriving = false) ∧
    generateCarpool "e1" [⟨"p1", "P", "t", "g", false, []⟩]
        [⟨"e1", "p1", true, true⟩] [] [] (fun _ => "x") =
      Except.error GenError.noDriversAvailable :=
  ⟨by simp, claim4_no_drivers "e1" [⟨"p1", "P", "t", "g", false, []⟩]
    [⟨"e1", "p1", true, true⟩] [] [] (fun _ => "x") (by simp)⟩

/-- C8: the manual override removes the dragged player's assignment,
inserts exactly one new assignment to the target driver with direction
`'both'`, and leaves every other player's assignment records (and their
order) unchanged. It is a total function with no capacity or eligibility
check, so the write succeeds for every input list, including lists where
the target driver is already at or over capacity. -/
theorem claim8_override_isolation (eventId : ID) (assignments : List Assignment)
    (pid target newId : ID) :
    (handleDrop eventId assignments pid target newId).filter
        (fun a => a.playerId == pid) =
      [{ id := newId, eventId := eventId, driverId := target,
         playerId := pid, direction := Direction.both }] ∧
    (handleDrop eventId assignments pid target newId).filter
        (fun a => !(a.playerId == pid)) =
      assignments.filter (fun a => !(a.playerId == pid)) := by
  constructor
  · rw [handleDrop, List.filter_append, List.filter_filter]
    have h1 : assignments.filter
        (fun a => (a.playerId == pid) && !(a.playerId == pid)) = [] := by
      rw [List.filter_eq_nil_iff]
      intro a _
      cases h : a.playerId == pid <;> simp [h]
    rw [h1]
    simp
  · rw [handleDrop, List.filter_append, List.filter_filter]
    have h1 : assignments.filter
        (fun a => !(a.playerId == pid) && !(a.playerId == pid)) =
        assignments.filter (fun a => !(a.playerId == pid)) := by
      congr 1
      funext a
      exact Bool.and_self _
    simp [h1]

/-- C10: when several rules match the same (driverId, playerId) pair,
both the `allowed` verdict and the `preference` come from the earliest
matching rule in list order (both resolvers use the same `find?`), and
later duplicates are ignored. -/
theorem claim10_first_rule_decides (pre post : List Eligibility) (r : Eligibility)
    (did pid : ID) (hdid : r.driverId = did) (hpid : r.playerId = pid)
    (hpre : ∀ e ∈ pre, ¬(e.driverId = did ∧ e.playerId = pid)) :
    isAllowed (pre ++ r :: post) did pid = r.allowed ∧
    getPreference (pre ++ r :: post) did pid = r.preference := by
  have hfind : (pre ++ r :: post).find?
      (fun e => e.driverId == did && e.playerId == pid) = some r := by
    rw [List.find?_append]
    have h1 : pre.find? (fun e => e.driverId == did && e.playerId == pid) = none := by
      rw [List.find?_eq_none]
      intro e he
      have := hpre e he
      simp only [Bool.and_eq_true, beq_iff_eq, not_and] at *
      tauto
    rw [h1]
    simp [List.find?_cons, hdid, hpid]
  constructor
  · rw [isAllowed, hfind]
  · rw [getPreference, hfind]

theorem claim10_witness :
    ((⟨"d", "p", false, Preference.prefer⟩ : Eligibility).driverId = "d") ∧
    ((⟨"d", "p", false, Preference.prefer⟩ : Eligibility).playerId = "p") ∧
    (∀ e ∈ ([] : List Eligibility), ¬(e.driverId = "d" ∧ e.playerId = "p")) ∧
    isAllowed [⟨"d", "p", false, Preference.prefer⟩,
        ⟨"d", "p", true, Preference.always⟩] "d" "p" = false ∧
    getPreference [⟨"d", "p", false, Preference.prefer⟩,
        ⟨"d", "p", true, Preference.always⟩] "d" "p" = Preference.prefer :=
  ⟨rfl, rfl, by simp,
    claim10_first_rule_decides [] [⟨"d", "p", true, Preference.always⟩]
      ⟨"d", "p", false, Preference.prefer⟩ "d" "p" rfl rfl (by simp)⟩

/-- C3: an active driver never explicitly configured for the event (no
availability record yet, so the per-event seat fields are about to be
created rather than read) gets, via the `toggleDriver` default record,
an availability record seeded with the driver's global
`maxSeatsTotal`/`maxChildSeats`, and the capacity bucket the engine
builds from that record therefore uses exactly those global maxima as
`remainingSeats`/`remainingChildSeats`. -/
theorem claim3_global_default (allDrivers : List Driver)
    (localEventDrivers : List EventDriver) (eventId did : ID) (driverDef : Driver)
    (h1 : localEventDrivers.find? (fun d => d.driverId == did) = none)
    (h2 : allDrivers.find? (fun d => d.id == did) = some driverDef) :
    toggleDriverIsDriving allDrivers localEventDrivers eventId did =
      some (localEventDrivers.filter (fun d => !(d.driverId == did)) ++
        [{ eventId := eventId, driverId := did, isDriving := true,
           direction := Direction.both,
           availableSeatsTotal := driverDef.maxSeatsTotal,
           availableChildSeats := driverDef.maxChildSeats, notes := "" }]) ∧
    (mkBucket { eventId := eventId, driverId := did, isDriving := true,
                direction := Direction.both,
                availableSeatsTotal := driverDef.maxSeatsTotal,
                availableChildSeats := driverDef.maxChildSeats,
                notes := "" }).remainingSeats = driverDef.maxSeatsTotal ∧
    (mkBucket { eventId := eventId, driverId := did, isDriving := true,
                direction := Direction.both,
                availableSeatsTotal := driverDef.maxSeatsTotal,
                availableChildSeats := driverDef.maxChildSeats,
                notes := "" }).remainingChildSeats = driverDef.maxChildSeats := by
  refine ⟨?_, rfl, rfl⟩
  rw [toggleDriverIsDriving]
  simp only [h1, h2, Option.map_some]
  rfl

theorem claim3_witness :
    (([] : List EventDriver).find? (fun d => d.driverId == "d1") = none) ∧
    ([⟨"d1", "Dana", true, 4, 2, ""⟩] : List Driver).find? (fun d => d.id == "d1") =
      some ⟨"d1", "Dana", true, 4, 2, ""⟩ ∧
    toggleDriverIsDriving [⟨"d1", "Dana", true, 4, 2, ""⟩] [] "e1" "d1" =
      some [{ eventId := "e1", driverId := "d1", isDriving := true,
              direction := Direction.both, availableSeatsTotal := 4,
              availableChildSeats := 2, notes := "" }] :=
  ⟨rfl, by decide,
    (claim3_global_default [⟨"d1", "Dana", true, 4, 2, ""⟩] [] "e1" "d1"
      ⟨"d1", "Dana", true, 4, 2, ""⟩ rfl (by decide)).1⟩

theorem childSeatLE_trans (a b c : Player) (h1 : childSeatLE a b = true)
    (h2 : childSeatLE b c = true) : childSeatLE a c = true := by
  simp only [childSeatLE, Bool.or_eq_true, Bool.not_eq_true'] at *
  rcases h1 with h1 | h1
  · exact Or.inl h1
  · rcases h2 with h2 | h2
    · rw [h1] at h2
      exact absurd h2 (by simp)
    · exact Or.inr h2

theorem childSeatLE_total (a b : Player) :
    (childSeatLE a b || childSeatLE b a) = true := by
  simp only [childSeatLE]
  cases a.needsChildSeat <;> cases b.needsChildSeat <;> rfl

/-- A list that is pairwise ordered for `childSeatLE` is exactly its
child-seat part followed by its non-child-seat part. -/
theorem pairwise_childSeat_decomp (l : List Player)
    (h : l.Pairwise (fun a b => childSeatLE a b = true)) :
    l = l.filter (fun p => p.needsChildSeat) ++
      l.filter (fun p => !p.needsChildSeat) := by
  induction l with
  | nil => rfl
  | cons a t ih =>
    rcases List.pairwise_cons.mp h with ⟨ha, ht⟩
    cases hseat : a.needsChildSeat with
    | true =>
      simp only [List.filter_cons, hseat]
      simpa using ih ht
    | false =>
      have hall : ∀ b ∈ t, b.needsChildSeat = false := by
        intro b hb
        have := ha b hb
        simp only [childSeatLE, hseat, Bool.or_eq_true, Bool.not_eq_true'] at this
        rcases this with h' | h'
        · exact absurd h' (by simp)
        · exact h'
      have h1 : t.filter (fun p => p.needsChildSeat) = [] := by
        rw [List.filter_eq_nil_iff]
        intro b hb
        simp [hall b hb]
      have h2 : t.filter (fun p => !p.needsChildSeat) = t := by
        rw [List.filter_eq_self]
        intro b hb
        simp [hall b hb]
      simp [List.filter_cons, hseat, h1, h2]

/-- The two group filters pass through the stable sort unchanged: a
filter of the input that is `childSeatLE`-pairwise is a sublist of the
merge-sorted output, and a sublist that is also a permutation-image of
the same filter must equal it. -/
theorem sortPlayers_filter_eq (p : Player → Bool) (l : List Player)
    (hpw : ∀ a ∈ l.filter p, ∀ b ∈ l.filter p, childSeatLE a b = true) :
    (sortPlayers l).filter p = l.filter p := by
  have hsub : (l.filter p).Sublist (sortPlayers l) :=
    List.sublist_mergeSort childSeatLE_trans childSeatLE_total
      (List.pairwise_of_forall_mem_list hpw) (List.filter_sublist l)
  have hidem : (l.filter p).filter p = l.filter p := by
    rw [List.filter_filter]
    congr 1
    funext a
    exact Bool.and_self _
  have hsub2 : (l.filter p).Sublist ((sortPlayers l).filter p) := by
    have h2 := List.Sublist.filter p hsub
    rwa [hidem] at h2
  have hperm : ((sortPlayers l).filter p).Perm (l.filter p) :=
    List.Perm.filter p (List.mergeSort_perm l childSeatLE)
  exact (hsub2.eq_of_length hperm.length_eq.symm).symm

/-- C6: the candidate ordering pass. `sortPlayers` (the stable JS sort
of App.tsx 693) puts every player with `needsChildSeat = true` before
every player without it (first conjunct), and keeps each of the two
groups in input order: the result is exactly the child-seat players in
input order followed by the other players in input order (second
conjunct). -/
theorem claim6_child_seat_first (l : List Player) :
    (sortPlayers l).Pairwise
      (fun a b => b.needsChildSeat = true → a.needsChildSeat = true) ∧
    sortPlayers l = l.filter (fun p => p.needsChildSeat) ++
      l.filter (fun p => !p.needsChildSeat) := by
  have hsorted : (sortPlayers l).Pairwise (fun a b => childSeatLE a b = true) :=
    List.sorted_mergeSort childSeatLE_trans childSeatLE_total l
  constructor
  · refine hsorted.imp ?_
    intro a b hab hb
    simp only [childSeatLE, Bool.or_eq_true, Bool.not_eq_true'] at hab
    rcases hab with h | h
    · exact h
    · rw [hb] at h
      exact absurd h (by simp)
  · have hdec := pairwise_childSeat_decomp (sortPlayers l) hsorted
    have hA := sortPlayers_filter_eq (fun p => p.needsChildSeat) l (by
      intro a ha b _
      have := (List.mem_filter.mp ha).2
      simp only at this
      simp [childSeatLE, this])
    have hB := sortPlayers_filter_eq (fun p => !p.needsChildSeat) l (by
      intro a _ b hb
      have := (List.mem_filter.mp hb).2
      simp only [Bool.not_eq_true'] at this
      simp [childSeatLE, this])
    rw [hdec, hA, hB]

/-- The scoring rule as the spec words it: base 10 for any feasible
bucket, plus 50 if the resolved preference is `always`, plus 20 if it is
`prefer`, and nothing for `none`. Stated separately from `bucketScore`
(which transcribes the source's two sequential `if`s) so the two can be
compared. -/
def specScore (rules : List Eligibility) (player : Player) (b : Bucket) : Int :=
  10 + (if getPreference rules b.driverId player.id = Preference.always then 50
        else if getPreference rules b.driverId player.id = Preference.prefer then 20
        else 0)

theorem bucketScore_eq_specScore (rules : List Eligibility) (player : Player)
    (b : Bucket) : bucketScore rules player b = specScore rules player b := by
  rw [bucketScore, specScore]
  cases h : getPreference rules b.driverId player.id <;> simp [h]

theorem bucketScore_ge_ten (rules : List Eligibility) (player : Player)
    (b : Bucket) : 10 ≤ bucketScore rules player b := by
  rw [bucketScore]
  cases h : getPreference rules b.driverId player.id <;> simp [h]

/-- Full characterization of the `forEach` selection loop: starting from
state `best`, the loop either keeps `best` (when no feasible bucket
beats its score) or lands on the first feasible bucket attaining the
maximal score among feasible buckets that beat `best`. -/
theorem bestLoop_spec (rules : List Eligibility) (player : Player) :
    ∀ (bs : List Bucket) (idx : Nat) (best : Int × Int),
      (bestLoop rules player bs idx best = best ∧
        ∀ j (hj : j < bs.length), bucketFeasible rules player bs[j] = true →
          bucketScore rules player bs[j] ≤ best.2) ∨
      (∃ k, ∃ (hk : k < bs.length),
        bucketFeasible rules player bs[k] = true ∧
        bestLoop rules player bs idx best =
          (((idx + k : Nat) : Int), bucketScore rules player bs[k]) ∧
        best.2 < bucketScore rules player bs[k] ∧
        (∀ j (hj : j < bs.length), bucketFeasible rules player bs[j] = true →
          bucketScore rules player bs[j] ≤ bucketScore rules player bs[k]) ∧
        (∀ j (hj : j < bs.length), j < k → bucketFeasible rules player bs[j] = true →
          bucketScore rules player bs[j] < bucketScore rules player bs[k])) := by
  intro bs
  induction bs with
  | nil =>
    intro idx best
    left
    exact ⟨rfl, fun j hj => absurd hj (by simp)⟩
  | cons b rest ih =>
    intro idx best
    by_cases hcond : bucketFeasible rules player b = true ∧
        bucketScore rules player b > best.2
    · have hstep : bestLoop rules player (b :: rest) idx best =
          bestLoop rules player rest (idx + 1)
            (((idx : Nat) : Int), bucketScore rules player b) := by
        rw [bestLoop]
        simp only [if_pos hcond]
      rcases ih (idx + 1) (((idx : Nat) : Int), bucketScore rules player b) with
        ⟨heq, hall⟩ | ⟨k, hk, hfeasw, heq, hgtw, hmax, hfirst⟩
      · right
        refine ⟨0, by simp, ?_⟩
        simp only [List.getElem_cons_zero]
        refine ⟨hcond.1, ?_, hcond.2, ?_, ?_⟩
        · rw [hstep, heq]
          simp
        · intro j hj hfeas
          cases j with
          | zero => simp
          | succ j' =>
            simp only [List.getElem_cons_succ] at hfeas ⊢
            exact hall j' (by simpa using hj) hfeas
        · intro j hj hj0 hfeas
          exact absurd hj0 (by omega)
      · right
        refine ⟨k + 1, by simpa using hk, ?_⟩
        simp only [List.getElem_cons_succ]
        have hbw : bucketScore rules player b < bucketScore rules player rest[k] := by
          simpa using hgtw
        refine ⟨hfeasw, ?_, ?_, ?_, ?_⟩
        · rw [hstep, heq]
          congr 2
          omega
        · exact lt_trans hcond.2 hbw
        · intro j hj hfeas
          cases j with
          | zero =>
            simp only [List.getElem_cons_zero] at hfeas ⊢
            exact le_of_lt hbw
          | succ j' =>
            simp only [List.getElem_cons_succ] at hfeas ⊢
            exact hmax j' (by simpa using hj) hfeas
        · intro j hj hjk hfeas
          cases j with
          | zero =>
            simp only [List.getElem_cons_zero] at hfeas ⊢
            exact hbw
          | succ j' =>
            simp only [List.getElem_cons_succ] at hfeas ⊢
            exact hfirst j' (by simpa using hj) (by omega) hfeas
    · have hstep : bestLoop rules player (b :: rest) idx best =
          bestLoop rules player rest (idx + 1) best := by
        rw [bestLoop]
        simp only [if_neg hcond]
      have hble : bucketFeasible rules player b = true →
          bucketScore rules player b ≤ best.2 := by
        intro hfeas
        by_contra hlt
        exact hcond ⟨hfeas, by omega⟩
      rcases ih (idx + 1) best with
        ⟨heq, hall⟩ | ⟨k, hk, hfeasw, heq, hgtw, hmax, hfirst⟩
      · left
        refine ⟨by rw [hstep, heq], ?_⟩
        intro j hj hfeas
        cases j with
        | zero =>
          simp only [List.getElem_cons_zero] at hfeas ⊢
          exact hble hfeas
        | succ j' =>
          simp only [List.getElem_cons_succ] at hfeas ⊢
          exact hall j' (by simpa using hj) hfeas
      · right
        refine ⟨k + 1, by simpa using hk, ?_⟩
        simp only [List.getElem_cons_succ]
        refine ⟨hfeasw, ?_, hgtw, ?_, ?_⟩
        · rw [hstep, heq]
          congr 2
          omega
        · intro j hj hfeas
          cases j with
          | zero =>
            simp only [List.getElem_cons_zero] at hfeas ⊢
            exact le_trans (hble hfeas) (le_of_lt hgtw)
          | succ j' =>
            simp only [List.getElem_cons_succ] at hfeas ⊢
            exact hmax j' (by simpa using hj) hfeas
        · intro j hj hjk hfeas
          cases j with
          | zero =>
            simp only [List.getElem_cons_zero] at hfeas ⊢
            exact lt_of_le_of_lt (hble hfeas) hgtw
          | succ j' =>
            simp only [List.getElem_cons_succ] at hfeas ⊢
            exact hfirst j' (by simpa using hj) (by omega) hfeas

/-- `findBestDriver` either reports `-1` (then no bucket is feasible) or
an in-range index of a feasible bucket together with its score. -/
theorem findBestDriver_cases (rules : List Eligibility) (player : Player)
    (buckets : List Bucket) :
    (findBestDriver rules player buckets = (-1, -1) ∧
      ∀ j (hj : j < buckets.length),
        ¬(bucketFeasible rules player buckets[j] = true)) ∨
    (∃ k, ∃ (hk : k < buckets.length),
      bucketFeasible rules player buckets[k] = true ∧
      findBestDriver rules player buckets =
        ((k : Int), bucketScore rules player buckets[k]) ∧
      (∀ j (hj : j < buckets.length), bucketFeasible rules player buckets[j] = true →
        bucketScore rules player buckets[j] ≤ bucketScore rules player buckets[k]) ∧
      (∀ j (hj : j < buckets.length), j < k →
        bucketFeasible rules player buckets[j] = true →
        bucketScore rules player buckets[j] < bucketScore rules player buckets[k])) := by
  rcases bestLoop_spec rules player buckets 0 (-1, -1) with
    ⟨heq, hall⟩ | ⟨k, hk, hfeas, heq, _, hmax, hfirst⟩
  · left
    refine ⟨heq, ?_⟩
    intro j hj hfeas
    have h1 := hall j hj hfeas
    have h2 := bucketScore_ge_ten rules player buckets[j]
    simp only at h1
    omega
  · right
    refine ⟨k, hk, hfeas, ?_, hmax, hfirst⟩
    rw [findBestDriver, heq]
    congr 2
    omega

/-- C5: per-candidate selection. If any bucket is feasible for the
player, the generator step assigns the player to a feasible bucket whose
score is maximal among all feasible buckets — strictly beating every
feasible bucket at an earlier index, so on ties the first bucket in
iteration order wins and remaining capacity plays no role — and the
score is exactly the spec formula (base 10, +50 for `always`, +20 for
`prefer`, nothing for `none`). -/
theorem claim5_highest_score_first_wins (rules : List Eligibility) (eventId : ID)
    (ids : Nat → ID) (s : GenState) (player : Player)
    (j : Nat) (hj : j < s.buckets.length)
    (hjfeas : bucketFeasible rules player s.buckets[j] = true) :
    (∀ b : Bucket, bucketScore rules player b = specScore rules player b) ∧
    ∃ k, ∃ (hk : k < s.buckets.length),
      bucketFeasible rules player s.buckets[k] = true ∧
      (findBestDriver rules player s.buckets).1 = (k : Int) ∧
      (∀ i (hi : i < s.buckets.length),
        bucketFeasible rules player s.buckets[i] = true →
        specScore rules player s.buckets[i] ≤ specScore rules player s.buckets[k]) ∧
      (∀ i (hi : i < s.buckets.length), i < k →
        bucketFeasible rules player s.buckets[i] = true →
        specScore rules player s.buckets[i] < specScore rules player s.buckets[k]) ∧
      (assignStep rules eventId ids s player).newAssignments =
        s.newAssignments ++
          [{ id := ids s.ctr, eventId := eventId,
             driverId := (s.buckets[k]).driverId,
             playerId := player.id, direction := Direction.both }] := by
  refine ⟨fun b => bucketScore_eq_specScore rules player b, ?_⟩
  rcases findBestDriver_cases rules player s.buckets with
    ⟨_, hnone⟩ | ⟨k, hk, hfeas, heq, hmax, hfirst⟩
  · exact absurd hjfeas (hnone j hj)
  · refine ⟨k, hk, hfeas, by rw [heq], ?_, ?_, ?_⟩
    · intro i hi hfeasi
      have := hmax i hi hfeasi
      rwa [bucketScore_eq_specScore, bucketScore_eq_specScore] at this
    · intro i hi hik hfeasi
      have := hfirst i hi hik hfeasi
      rwa [bucketScore_eq_specScore, bucketScore_eq_specScore] at this
    · rw [assignStep]
      simp only [heq]
      rw [if_neg (by omega)]
      have htn : ((k : Int)).toNat = k := Int.toNat_natCast k
      simp only [htn, List.getElem?_eq_getElem hk]

/-- Concrete fixture: a player who does not need a child seat. -/
def pNoSeat : Player := ⟨"p1", "P1", "t", "g", false, []⟩

/-- Concrete fixture: a player who needs a child seat. -/
def pSeat : Player := ⟨"p2", "P2", "t", "g", true, []⟩

/-- Concrete fixture: an active availability record with 2 seats, 1
child seat. -/
def edSample : EventDriver := ⟨"e1", "d1", true, Direction.both, 2, 1, ""⟩

/-- Concrete fixture: a generator pass state with the single bucket of
`edSample`. -/
def sSample : GenState := ⟨[mkBucket edSample], [], [], 0⟩

theorem claim5_witness :
    (0 < sSample.buckets.length) ∧
    bucketFeasible [] pNoSeat (mkBucket edSample) = true ∧
    ((∀ b : Bucket, bucketScore [] pNoSeat b = specScore [] pNoSeat b) ∧
      ∃ k, ∃ (hk : k < sSample.buckets.length),
        bucketFeasible [] pNoSeat sSample.buckets[k] = true ∧
        (findBestDriver [] pNoSeat sSample.buckets).1 = (k : Int) ∧
        (∀ i (hi : i < sSample.buckets.length),
          bucketFeasible [] pNoSeat sSample.buckets[i] = true →
          specScore [] pNoSeat sSample.buckets[i] ≤
            specScore [] pNoSeat sSample.buckets[k]) ∧
        (∀ i (hi : i < sSample.buckets.length), i < k →
          bucketFeasible [] pNoSeat sSample.buckets[i] = true →
          specScore [] pNoSeat sSample.buckets[i] <
            specScore [] pNoSeat sSample.buckets[k]) ∧
        (assignStep [] "e1" (fun _ => "x") sSample pNoSeat).newAssignments =
          sSample.newAssignments ++
            [{ id := (fun _ : Nat => "x") sSample.ctr, eventId := "e1",
               driverId := (sSample.buckets[k]).driverId,
               playerId := pNoSeat.id, direction := Direction.both }]) :=
  ⟨by decide, by decide,
    claim5_highest_score_first_wins [] "e1" (fun _ => "x") sSample pNoSeat 0
      (by decide) (by decide)⟩

/-- How many assignments in `l` reference driver `did` (the driver's
displayed load, App.tsx 911). -/
def countDriver (l : List Assignment) (did : ID) : Nat :=
  (l.filter (fun a => a.driverId == did)).length

/-- How many assignments in `l` reference driver `did` with a passenger
satisfying `needs` (instantiated below with the child-seat lookup). -/
def countChildDriver (needs : ID → Bool) (l : List Assignment) (did : ID) : Nat :=
  (l.filter (fun a => a.driverId == did && needs a.playerId)).length

/-- Whether the player with id `pid` needs a child seat, looked up in
the roster. -/
def playerNeedsSeat (allPlayers : List Player) (pid : ID) : Bool :=
  match allPlayers.find? (fun p => p.id == pid) with
  | some p => p.needsChildSeat
  | none => false

/-- Each loop iteration has exactly one of two shapes: an `'unassigned'`
emission that leaves the buckets alone, or a commit to a feasible bucket
at an in-range index `k`: that bucket's counters are decremented (the
child counter only for a child-seat player), the player is pushed, and
the emitted assignment carries that bucket's driverId. -/
theorem assignStep_shape (rules : List Eligibility) (eventId : ID) (ids : Nat → ID)
    (s : GenState) (player : Player) :
    (assignStep rules eventId ids s player =
      { buckets := s.buckets
        newAssignments := s.newAssignments ++
          [{ id := ids s.ctr, eventId := eventId, driverId := "unassigned",
             playerId := player.id, direction := Direction.both }]
        unassignedIds := s.unassignedIds ++ [player.id]
        ctr := s.ctr + 1 }) ∨
    (∃ k, ∃ (hk : k < s.buckets.length),
      bucketFeasible rules player s.buckets[k] = true ∧
      assignStep rules eventId ids s player =
        { buckets := s.buckets.set k
            { s.buckets[k] with
              remainingSeats := (s.buckets[k]).remainingSeats - 1
              remainingChildSeats :=
                if player.needsChildSeat then (s.buckets[k]).remainingChildSeats - 1
                else (s.buckets[k]).remainingChildSeats
              assignedPlayerIds := (s.buckets[k]).assignedPlayerIds ++ [player.id] }
          newAssignments := s.newAssignments ++
            [{ id := ids s.ctr, eventId := eventId,
               driverId := Bucket.driverId s.buckets[k],
               playerId := player.id, direction := Direction.both }]
          unassignedIds := s.unassignedIds
          ctr := s.ctr + 1 }) := by
  rcases findBestDriver_cases rules player s.buckets with
    ⟨heq, _⟩ | ⟨k, hk, hfeas, heq, _, _⟩
  · left
    rw [assignStep]
    simp only [heq]
    rw [if_pos trivial]
  · right
    refine ⟨k, hk, hfeas, ?_⟩
    rw [assignStep]
    simp only [heq]
    rw [if_neg (by omega)]
    simp only [Int.toNat_natCast, List.getElem?_eq_getElem hk]

theorem countDriver_append (l : List Assignment) (a : Assignment) (did : ID) :
    countDriver (l ++ [a]) did =
      countDriver l did + (if a.driverId == did then 1 else 0) := by
  rw [countDriver, countDriver, List.filter_append]
  cases h : a.driverId == did <;> simp [h]

theorem countChildDriver_append (needs : ID → Bool) (l : List Assignment)
    (a : Assignment) (did : ID) :
    countChildDriver needs (l ++ [a]) did =
      countChildDriver needs l did +
        (if a.driverId == did && needs a.playerId then 1 else 0) := by
  rw [countChildDriver, countChildDriver, List.filter_append]
  cases h : (a.driverId == did && needs a.playerId) <;> simp [h]

/-- Replacing a bucket by one with the same underlying availability
record leaves the `ev` projection of the arena unchanged. -/
theorem map_ev_set (bs : List Bucket) (k : Nat) (b' : Bucket) (hk : k < bs.length)
    (hb' : b'.ev = (bs[k]).ev) :
    (bs.set k b').map Bucket.ev = bs.map Bucket.ev := by
  apply List.ext_getElem (by simp)
  intro i h1 h2
  rw [List.getElem_map, List.getElem_map, List.getElem_set]
  by_cases h : k = i
  · subst h
    rw [if_pos rfl]
    exact hb'
  · rw [if_neg h]

/-- The availability records underlying the bucket arena are constant
through the whole pass (only counters and assigned lists mutate). -/
theorem map_ev_foldl (rules : List Eligibility) (eventId : ID) (ids : Nat → ID) :
    ∀ (l : List Player) (s : GenState),
      ((l.foldl (assignStep rules eventId ids) s).buckets).map Bucket.ev =
        s.buckets.map Bucket.ev := by
  intro l
  induction l with
  | nil => intro s; rfl
  | cons p t ih =>
    intro s
    rw [List.foldl_cons, ih]
    rcases assignStep_shape rules eventId ids s p with heq | ⟨k, hk, _, heq⟩
    · rw [heq]
    · rw [heq]
      exact map_ev_set s.buckets k _ hk rfl

/-- The pass invariant: driver ids of the arena are distinct and free of
the `'unassigned'` sentinel, both counters are non-negative, and each
counter equals the record's declared capacity minus the number of
matching emitted assignments. -/
def PassInv (needs : ID → Bool) (s : GenState) : Prop :=
  (s.buckets.map Bucket.driverId).Nodup ∧
  "unassigned" ∉ s.buckets.map Bucket.driverId ∧
  ∀ i (hi : i < s.buckets.length),
    0 ≤ (s.buckets[i]).remainingSeats ∧
    0 ≤ (s.buckets[i]).remainingChildSeats ∧
    (s.buckets[i]).remainingSeats =
      (s.buckets[i]).ev.availableSeatsTotal -
        (countDriver s.newAssignments (Bucket.driverId s.buckets[i]) : Int) ∧
    (s.buckets[i]).remainingChildSeats =
      (s.buckets[i]).ev.availableChildSeats -
        (countChildDriver needs s.newAssignments (Bucket.driverId s.buckets[i]) : Int)

theorem bucketFeasible_seats {rules : List Eligibility} {player : Player} {b : Bucket}
    (h : bucketFeasible rules player b = true) :
    0 < b.remainingSeats ∧
    (player.needsChildSeat = true → 0 < b.remainingChildSeats) := by
  rw [bucketFeasible] at h
  simp only [Bool.and_eq_true, Bool.not_eq_true', decide_eq_false_iff_not,
    Bool.and_eq_false_iff] at h
  constructor
  · omega
  · intro hn
    rcases h.1.2 with h' | h'
    · rw [hn] at h'
      exact absurd h' (by simp)
    · omega

theorem passInv_step (rules : List Eligibility) (eventId : ID) (ids : Nat → ID)
    (needs : ID → Bool) (s : GenState) (player : Player)
    (hneeds : needs player.id = player.needsChildSeat)
    (hinv : PassInv needs s) :
    PassInv needs (assignStep rules eventId ids s player) := by
  obtain ⟨hnd, hun, hcnt⟩ := hinv
  rcases assignStep_shape rules eventId ids s player with heq | ⟨k, hk, hfeas, heq⟩
  · rw [heq]
    refine ⟨hnd, hun, ?_⟩
    intro i hi
    dsimp only at hi ⊢
    obtain ⟨h1, h2, h3, h4⟩ := hcnt i hi
    have hmem : Bucket.driverId s.buckets[i] ∈ s.buckets.map Bucket.driverId :=
      List.mem_map_of_mem Bucket.driverId (List.getElem_mem hi)
    have hne : (("unassigned" : ID) ==
        Bucket.driverId s.buckets[i]) = false := by
      rw [beq_eq_false_iff_ne]
      intro hcontra
      exact hun (hcontra ▸ hmem)
    have hcd : countDriver (s.newAssignments ++
        [{ id := ids s.ctr, eventId := eventId, driverId := "unassigned",
           playerId := player.id, direction := Direction.both }])
        (Bucket.driverId s.buckets[i]) =
        countDriver s.newAssignments (Bucket.driverId s.buckets[i]) := by
      rw [countDriver_append]
      dsimp only
      rw [hne]
      simp
    have hcc : countChildDriver needs (s.newAssignments ++
        [{ id := ids s.ctr, eventId := eventId, driverId := "unassigned",
           playerId := player.id, direction := Direction.both }])
        (Bucket.driverId s.buckets[i]) =
        countChildDriver needs s.newAssignments (Bucket.driverId s.buckets[i]) := by
      rw [countChildDriver_append]
      dsimp only
      rw [hne]
      simp
    exact ⟨h1, h2, by rw [hcd]; exact h3, by rw [hcc]; exact h4⟩
  · rw [heq]
    have hmapd : ((s.buckets.set k
        { s.buckets[k] with
          remainingSeats := (s.buckets[k]).remainingSeats - 1
          remainingChildSeats :=
            if player.needsChildSeat then (s.buckets[k]).remainingChildSeats - 1
            else (s.buckets[k]).remainingChildSeats
          assignedPlayerIds := (s.buckets[k]).assignedPlayerIds ++ [player.id] }).map
        Bucket.driverId) = s.buckets.map Bucket.driverId := by
      apply List.ext_getElem (by simp)
      intro i h1 h2
      rw [List.getElem_map, List.getElem_map, List.getElem_set]
      by_cases h : k = i
      · subst h
        rw [if_pos rfl]
        rfl
      · rw [if_neg h]
    refine ⟨by rw [hmapd]; exact hnd, by rw [hmapd]; exact hun, ?_⟩
    intro i hi
    dsimp only at hi ⊢
    have hi' : i < s.buckets.length := by simpa using hi
    have hseats := bucketFeasible_seats hfeas
    have hself : ((Bucket.driverId s.buckets[k]) ==
        (Bucket.driverId s.buckets[k])) = true := by simp
    by_cases hik : k = i
    · subst hik
      obtain ⟨hk1, hk2, hk3, hk4⟩ := hcnt k hk
      rw [List.getElem_set, if_pos rfl]
      have hdid : Bucket.driverId
          { s.buckets[k] with
            remainingSeats := (s.buckets[k]).remainingSeats - 1
            remainingChildSeats :=
              if player.needsChildSeat then (s.buckets[k]).remainingChildSeats - 1
              else (s.buckets[k]).remainingChildSeats
            assignedPlayerIds := (s.buckets[k]).assignedPlayerIds ++ [player.id] } =
          Bucket.driverId s.buckets[k] := rfl
      rw [hdid]
      have hcd : countDriver (s.newAssignments ++
          [{ id := ids s.ctr, eventId := eventId,
             driverId := Bucket.driverId s.buckets[k],
             playerId := player.id, direction := Direction.both }])
          (Bucket.driverId s.buckets[k]) =
          countDriver s.newAssignments (Bucket.driverId s.buckets[k]) + 1 := by
        rw [countDriver_append]
        dsimp only
        rw [hself]
        simp
      have hcc : countChildDriver needs (s.newAssignments ++
          [{ id := ids s.ctr, eventId := eventId,
             driverId := Bucket.driverId s.buckets[k],
             playerId := player.id, direction := Direction.both }])
          (Bucket.driverId s.buckets[k]) =
          countChildDriver needs s.newAssignments (Bucket.driverId s.buckets[k]) +
            (if player.needsChildSeat then 1 else 0) := by
        rw [countChildDriver_append]
        dsimp only
        rw [hself, hneeds]
        cases hcs : player.needsChildSeat <;> simp [hcs]
      rw [hcd, hcc]
      dsimp only
      cases hcs : player.needsChildSeat with
      | true =>
        have hpos := hseats.2 hcs
        rw [if_pos rfl, if_pos rfl]
        refine ⟨by omega, by omega, ?_, ?_⟩
        · rw [hk3]
          push_cast
          ring
        · rw [hk4]
          push_cast
          ring
      | false =>
        rw [if_neg (by simp), if_neg (by simp)]
        refine ⟨by omega, hk2, ?_, ?_⟩
        · rw [hk3]
          push_cast
          ring
        · rw [hk4]
          push_cast
          ring
    · rw [List.getElem_set, if_neg hik]
      obtain ⟨h1, h2, h3, h4⟩ := hcnt i hi'
      have hdk : ((Bucket.driverId s.buckets[k]) ==
          (Bucket.driverId s.buckets[i])) = false := by
        rw [beq_eq_false_iff_ne]
        intro hcontra
        apply hik
        have hmk : Bucket.driverId s.buckets[k] =
            (s.buckets.map Bucket.driverId).get ⟨k, by simpa using hk⟩ := by
          rw [List.get_eq_getElem, List.getElem_map]
        have hmi : Bucket.driverId s.buckets[i] =
            (s.buckets.map Bucket.driverId).get ⟨i, by simpa using hi'⟩ := by
          rw [List.get_eq_getElem, List.getElem_map]
        rw [hmk, hmi] at hcontra
        rw [List.get_eq_getElem, List.get_eq_getElem] at hcontra
        exact (hnd.getElem_inj_iff.mp hcontra)
      have hcd : countDriver (s.newAssignments ++
          [{ id := ids s.ctr, eventId := eventId,
             driverId := Bucket.driverId s.buckets[k],
             playerId := player.id, direction := Direction.both }])
          (Bucket.driverId s.buckets[i]) =
          countDriver s.newAssignments (Bucket.driverId s.buckets[i]) := by
        rw [countDriver_append]
        dsimp only
        rw [hdk]
        simp
      have hcc : countChildDriver needs (s.newAssignments ++
          [{ id := ids s.ctr, eventId := eventId,
             driverId := Bucket.driverId s.buckets[k],
             playerId := player.id, direction := Direction.both }])
          (Bucket.driverId s.buckets[i]) =
          countChildDriver needs s.newAssignments (Bucket.driverId s.buckets[i]) := by
        rw [countChildDriver_append]
        dsimp only
        rw [hdk]
        simp
      exact ⟨h1, h2, by rw [hcd]; exact h3, by rw [hcc]; exact h4⟩

theorem passInv_foldl (rules : List Eligibility) (eventId : ID) (ids : Nat → ID)
    (needs : ID → Bool) :
    ∀ (l : List Player) (s : GenState),
      (∀ p ∈ l, needs p.id = p.needsChildSeat) →
      PassInv needs s →
      PassInv needs (l.foldl (assignStep rules eventId ids) s) := by
  intro l
  induction l with
  | nil => intro s _ hinv; exact hinv
  | cons p t ih =>
    intro s hmem hinv
    rw [List.foldl_cons]
    exact ih _ (fun q hq => hmem q (List.mem_cons_of_mem p hq))
      (passInv_step rules eventId ids needs s p (hmem p (List.mem_cons_self p t)) hinv)

/-- With globally distinct player ids, looking a member up by id gives
back that member. -/
theorem find?_id_of_nodup (l : List Player) (h : (l.map Player.id).Nodup)
    (p : Player) (hp : p ∈ l) : l.find? (fun q => q.id == p.id) = some p := by
  induction l with
  | nil => cases hp
  | cons a t ih =>
    rw [List.map_cons, List.nodup_cons] at h
    rcases List.mem_cons.mp hp with rfl | hpt
    · rw [List.find?_cons_of_pos _ (by simp)]
    · have hne : ¬((fun q : Player => q.id == p.id) a) = true := by
        simp only [beq_iff_eq]
        intro heq
        exact h.1 (heq ▸ List.mem_map_of_mem Player.id hpt)
      rw [List.find?_cons_of_neg t hne]
      exact ih h.2 hpt

theorem playerNeedsSeat_of_mem (allPlayers : List Player)
    (h : (allPlayers.map Player.id).Nodup) (p : Player) (hp : p ∈ allPlayers) :
    playerNeedsSeat allPlayers p.id = p.needsChildSeat := by
  rw [playerNeedsSeat, find?_id_of_nodup allPlayers h p hp]

theorem mem_sortPlayers_goingPlayers (allPlayers : List Player)
    (localAttendance : List EventAttendance) (p : Player)
    (hp : p ∈ sortPlayers (goingPlayers allPlayers localAttendance)) :
    p ∈ allPlayers := by
  rw [sortPlayers] at hp
  have h1 : p ∈ goingPlayers allPlayers localAttendance :=
    (List.mergeSort_perm _ childSeatLE).mem_iff.mp hp
  rw [goingPlayers] at h1
  exact (List.mem_filter.mp h1).1

/-- The initial bucket arena satisfies the pass invariant whenever the
active availability records have distinct driver ids (none of them the
sentinel) and non-negative declared capacities. -/
theorem passInv_init (needs : ID → Bool) (E : List EventDriver)
    (hnd : (E.map EventDriver.driverId).Nodup)
    (hun : "unassigned" ∉ E.map EventDriver.driverId)
    (hpos : ∀ d ∈ E, 0 ≤ d.availableSeatsTotal ∧ 0 ≤ d.availableChildSeats) :
    PassInv needs ⟨E.map mkBucket, [], [], 0⟩ := by
  have hmap : (E.map mkBucket).map Bucket.driverId = E.map EventDriver.driverId := by
    rw [List.map_map]
    rfl
  refine ⟨by rw [hmap]; exact hnd, by rw [hmap]; exact hun, ?_⟩
  intro i hi
  dsimp only at hi ⊢
  have hiE : i < E.length := by simpa using hi
  have hgi : (E.map mkBucket)[i] = mkBucket E[i] := List.getElem_map mkBucket
  have hpos' := hpos E[i] (List.getElem_mem hiE)
  rw [hgi]
  refine ⟨hpos'.1, hpos'.2, ?_, ?_⟩ <;>
    simp [mkBucket, countDriver, countChildDriver, Bucket.driverId]

/-- A successful generator run means the driver set was non-empty and
the result is exactly the final pass state's emissions. -/
theorem generateCarpool_ok (eventId : ID) (allPlayers : List Player)
    (localAttendance : List EventAttendance) (localEventDrivers : List EventDriver)
    (rules : List Eligibility) (ids : Nat → ID) (res : GenResult)
    (hok : generateCarpool eventId allPlayers localAttendance localEventDrivers rules ids =
      Except.ok res) :
    ¬((activeDrivers localEventDrivers).length = 0) ∧
    res = ⟨(runPass rules eventId ids
        (sortPlayers (goingPlayers allPlayers localAttendance))
        ((activeDrivers localEventDrivers).map mkBucket)).newAssignments,
      (runPass rules eventId ids
        (sortPlayers (goingPlayers allPlayers localAttendance))
        ((activeDrivers localEventDrivers).map mkBucket)).unassignedIds⟩ := by
  simp only [generateCarpool] at hok
  by_cases hlen : (activeDrivers localEventDrivers).length = 0
  · rw [if_pos hlen] at hok
    cases hok
  · rw [if_neg hlen] at hok
    injection hok with h
    exact ⟨hlen, h.symm⟩

/-- The `ev` projections of the final bucket arena are the active
availability records themselves. -/
theorem final_buckets_ev (rules : List Eligibility) (eventId : ID) (ids : Nat → ID)
    (players : List Player) (E : List EventDriver) :
    ((runPass rules eventId ids players (E.map mkBucket)).buckets).map Bucket.ev = E := by
  rw [runPass, map_ev_foldl]
  dsimp only
  rw [List.map_map]
  exact List.map_id E

/-- C1: capacity is respected by the automatic generator. Given
well-formed input (distinct player ids, distinct non-sentinel driver ids
among active records, non-negative declared capacities), every active
driver is referenced by at most `availableSeatsTotal` assignments and by
at most `availableChildSeats` assignments whose player needs a child
seat; equivalently, every bucket's `remainingSeats` and
`remainingChildSeats` are non-negative after every prefix of the pass. -/
theorem claim1_capacity_respected (eventId : ID) (allPlayers : List Player)
    (localAttendance : List EventAttendance) (localEventDrivers : List EventDriver)
    (rules : List Eligibility) (ids : Nat → ID) (res : GenResult)
    (hplayers : (allPlayers.map Player.id).Nodup)
    (hnd : ((activeDrivers localEventDrivers).map EventDriver.driverId).Nodup)
    (hun : "unassigned" ∉ (activeDrivers localEventDrivers).map EventDriver.driverId)
    (hpos : ∀ d ∈ activeDrivers localEventDrivers,
      0 ≤ d.availableSeatsTotal ∧ 0 ≤ d.availableChildSeats)
    (hok : generateCarpool eventId allPlayers localAttendance localEventDrivers rules ids =
      Except.ok res) :
    (∀ d ∈ activeDrivers localEventDrivers,
      (countDriver res.assignments d.driverId : Int) ≤ d.availableSeatsTotal ∧
      (countChildDriver (playerNeedsSeat allPlayers) res.assignments d.driverId : Int) ≤
        d.availableChildSeats) ∧
    (∀ n : Nat, ∀ i,
      ∀ (hi : i < (((sortPlayers (goingPlayers allPlayers localAttendance)).take n).foldl
          (assignStep rules eventId ids)
          ⟨(activeDrivers localEventDrivers).map mkBucket, [], [], 0⟩).buckets.length),
      0 ≤ ((((sortPlayers (goingPlayers allPlayers localAttendance)).take n).foldl
          (assignStep rules eventId ids)
          ⟨(activeDrivers localEventDrivers).map mkBucket, [], [], 0⟩).buckets[i]).remainingSeats ∧
      0 ≤ ((((sortPlayers (goingPlayers allPlayers localAttendance)).take n).foldl
          (assignStep rules eventId ids)
          ⟨(activeDrivers localEventDrivers).map mkBucket, [], [], 0⟩).buckets[i]).remainingChildSeats) := by
  obtain ⟨-, hres⟩ :=
    generateCarpool_ok eventId allPlayers localAttendance localEventDrivers rules ids res hok
  have hneeds : ∀ p ∈ sortPlayers (goingPlayers allPlayers localAttendance),
      playerNeedsSeat allPlayers p.id = p.needsChildSeat := fun p hp =>
    playerNeedsSeat_of_mem allPlayers hplayers p
      (mem_sortPlayers_goingPlayers allPlayers localAttendance p hp)
  have hinit := passInv_init (playerNeedsSeat allPlayers)
    (activeDrivers localEventDrivers) hnd hun hpos
  constructor
  · intro d hd
    have hfin := passInv_foldl rules eventId ids (playerNeedsSeat allPlayers)
      (sortPlayers (goingPlayers allPlayers localAttendance))
      ⟨(activeDrivers localEventDrivers).map mkBucket, [], [], 0⟩ hneeds hinit
    rw [show (sortPlayers (goingPlayers allPlayers localAttendance)).foldl
        (assignStep rules eventId ids)
        ⟨(activeDrivers localEventDrivers).map mkBucket, [], [], 0⟩ =
      runPass rules eventId ids (sortPlayers (goingPlayers allPlayers localAttendance))
        ((activeDrivers localEventDrivers).map mkBucket) from rfl] at hfin
    have hev := final_buckets_ev rules eventId ids
      (sortPlayers (goingPlayers allPlayers localAttendance))
      (activeDrivers localEventDrivers)
    obtain ⟨j, hj, hdj⟩ := List.mem_iff_getElem.mp hd
    have hlenF : (runPass rules eventId ids
        (sortPlayers (goingPlayers allPlayers localAttendance))
        ((activeDrivers localEventDrivers).map mkBucket)).buckets.length =
        (activeDrivers localEventDrivers).length := by
      have h := congrArg List.length hev
      rwa [List.length_map] at h
    have hjF : j < (runPass rules eventId ids
        (sortPlayers (goingPlayers allPlayers localAttendance))
        ((activeDrivers localEventDrivers).map mkBucket)).buckets.length := by
      omega
    have hevj : ((runPass rules eventId ids
        (sortPlayers (goingPlayers allPlayers localAttendance))
        ((activeDrivers localEventDrivers).map mkBucket)).buckets[j]).ev = d := by
      have h1 := List.getElem_of_eq hev
        (show j < ((runPass rules eventId ids
          (sortPlayers (goingPlayers allPlayers localAttendance))
          ((activeDrivers localEventDrivers).map mkBucket)).buckets.map Bucket.ev).length
          from by rw [List.length_map]; exact hjF)
      rw [List.getElem_map] at h1
      rw [h1, hdj]
    obtain ⟨hb1, hb2, hb3, hb4⟩ := hfin.2.2 j hjF
    rw [Bucket.driverId, hevj] at hb3 hb4
    rw [hres]
    dsimp only
    constructor
    · omega
    · omega
  · intro n i hi
    have hpre := passInv_foldl rules eventId ids (playerNeedsSeat allPlayers)
      ((sortPlayers (goingPlayers allPlayers localAttendance)).take n)
      ⟨(activeDrivers localEventDrivers).map mkBucket, [], [], 0⟩
      (fun p hp => hneeds p (List.take_subset n _ hp)) hinit
    exact ⟨(hpre.2.2 i hi).1, (hpre.2.2 i hi).2.1⟩

/-- Concrete fixture: attendance records marking both sample players as
going and needing a ride. -/
def attSample : List EventAttendance :=
  [⟨"e1", "p1", true, true⟩, ⟨"e1", "p2", true, true⟩]

/-- Concrete fixture: the generator output on the sample input (the
child-seat player is placed first). -/
def resSample : GenResult :=
  ⟨[⟨"x", "e1", "d1", "p2", Direction.both⟩,
    ⟨"x", "e1", "d1", "p1", Direction.both⟩], []⟩

/-- Concrete fixture: the pass state after the first `n` candidates of
the sample input. -/
def wPrefixState (n : Nat) : GenState :=
  ((sortPlayers (goingPlayers [pNoSeat, pSeat] attSample)).take n).foldl
    (assignStep [] "e1" (fun _ => "x"))
    ⟨(activeDrivers [edSample]).map mkBucket, [], [], 0⟩

theorem claim1_witness :
    (([pNoSeat, pSeat].map Player.id).Nodup) ∧
    ((activeDrivers [edSample]).map EventDriver.driverId).Nodup ∧
    "unassigned" ∉ (activeDrivers [edSample]).map EventDriver.driverId ∧
    (∀ d ∈ activeDrivers [edSample],
      0 ≤ d.availableSeatsTotal ∧ 0 ≤ d.availableChildSeats) ∧
    generateCarpool "e1" [pNoSeat, pSeat] attSample [edSample] [] (fun _ => "x") =
      Except.ok resSample ∧
    ((∀ d ∈ activeDrivers [edSample],
      (countDriver resSample.assignments d.driverId : Int) ≤ d.availableSeatsTotal ∧
      (countChildDriver (playerNeedsSeat [pNoSeat, pSeat])
          resSample.assignments d.driverId : Int) ≤ d.availableChildSeats) ∧
    (∀ n : Nat, ∀ i, ∀ (hi : i < (wPrefixState n).buckets.length),
      0 ≤ ((wPrefixState n).buckets[i]).remainingSeats ∧
      0 ≤ ((wPrefixState n).buckets[i]).remainingChildSeats)) :=
  ⟨by decide, by decide, by decide, by decide, by rfl,
    claim1_capacity_respected "e1" [pNoSeat, pSeat] attSample [edSample] []
      (fun _ => "x") resSample (by decide) (by decide) (by decide) (by decide)
      (by rfl)⟩

/-- Every assignment the pass emits either goes to the `'unassigned'`
sentinel or to a driver the eligibility resolver allows for that player
(feasibility included the `isAllowed` check at commit time, and the
resolver is pure, so the check's verdict is stable). -/
theorem foldl_assignments_allowed (rules : List Eligibility) (eventId : ID)
    (ids : Nat → ID) :
    ∀ (l : List Player) (s : GenState),
      (∀ a ∈ s.newAssignments,
        a.driverId = "unassigned" ∨ isAllowed rules a.driverId a.playerId = true) →
      ∀ a ∈ (l.foldl (assignStep rules eventId ids) s).newAssignments,
        a.driverId = "unassigned" ∨ isAllowed rules a.driverId a.playerId = true := by
  intro l
  induction l with
  | nil => intro s hs; exact hs
  | cons p t ih =>
    intro s hs
    rw [List.foldl_cons]
    apply ih
    rcases assignStep_shape rules eventId ids s p with heq | ⟨k, hk, hfeas, heq⟩
    · rw [heq]
      intro a ha
      dsimp only at ha
      rcases List.mem_append.mp ha with ha | ha
      · exact hs a ha
      · rcases List.mem_singleton.mp ha with rfl
        left
        rfl
    · rw [heq]
      intro a ha
      dsimp only at ha
      rcases List.mem_append.mp ha with ha | ha
      · exact hs a ha
      · rcases List.mem_singleton.mp ha with rfl
        right
        rw [bucketFeasible] at hfeas
        simp only [Bool.and_eq_true] at hfeas
        exact hfeas.2

/-- In a duplicate-free rule table, looking up a member's pair finds
that member. -/
theorem find?_rule_of_nodup (rules : List Eligibility)
    (hnd : rules.Pairwise
      (fun r1 r2 => ¬(r1.driverId = r2.driverId ∧ r1.playerId = r2.playerId)))
    (r : Eligibility) (hr : r ∈ rules) :
    rules.find? (fun e => e.driverId == r.driverId && e.playerId == r.playerId) =
      some r := by
  induction rules with
  | nil => cases hr
  | cons a t ih =>
    rcases List.pairwise_cons.mp hnd with ⟨ha, ht⟩
    rcases List.mem_cons.mp hr with rfl | hrt
    · rw [List.find?_cons_of_pos _ (by simp)]
    · have hne : ¬((fun e : Eligibility =>
          e.driverId == r.driverId && e.playerId == r.playerId) a) = true := by
        simp only [Bool.and_eq_true, beq_iff_eq]
        intro hcontra
        exact ha r hrt ⟨hcontra.1, hcontra.2⟩
      rw [List.find?_cons_of_neg t hne]
      exact ih ht hrt

/-- C7: hard eligibility is respected by the generator. With at most one
rule per (driver, player) pair — the shape the spec expects — a rule
with `allowed = false` means that pair never co-occurs in the output
with a real driver; and for a pair with no rule at all the resolver
answers `allowed = true` with preference `'none'`, so a missing rule
never blocks an assignment. -/
theorem claim7_hard_eligibility (eventId : ID) (allPlayers : List Player)
    (localAttendance : List EventAttendance) (localEventDrivers : List EventDriver)
    (rules : List Eligibility) (ids : Nat → ID) (res : GenResult)
    (hnd : rules.Pairwise
      (fun r1 r2 => ¬(r1.driverId = r2.driverId ∧ r1.playerId = r2.playerId)))
    (hok : generateCarpool eventId allPlayers localAttendance localEventDrivers rules ids =
      Except.ok res) :
    (∀ r ∈ rules, r.allowed = false →
      ∀ a ∈ res.assignments, ¬(a.driverId = "unassigned") →
        ¬(a.driverId = r.driverId ∧ a.playerId = r.playerId)) ∧
    (∀ did pid : ID, (∀ e ∈ rules, ¬(e.driverId = did ∧ e.playerId = pid)) →
      isAllowed rules did pid = true ∧ getPreference rules did pid = Preference.none) := by
  constructor
  · intro r hr hrfalse a ha hreal hpair
    obtain ⟨-, hres⟩ := generateCarpool_ok eventId allPlayers localAttendance
      localEventDrivers rules ids res hok
    rw [hres] at ha
    dsimp only at ha
    have hall := foldl_assignments_allowed rules eventId ids
      (sortPlayers (goingPlayers allPlayers localAttendance))
      ⟨(activeDrivers localEventDrivers).map mkBucket, [], [], 0⟩
      (by intro a ha; cases ha) a ha
    rcases hall with h | h
    · exact hreal h
    · rw [hpair.1, hpair.2] at h
      have hval : isAllowed rules r.driverId r.playerId = r.allowed := by
        rw [isAllowed, find?_rule_of_nodup rules hnd r hr]
      rw [hval, hrfalse] at h
      cases h
  · intro did pid hnone
    have hfind : rules.find? (fun e => e.driverId == did && e.playerId == pid) = none := by
      rw [List.find?_eq_none]
      intro e he
      simp only [Bool.and_eq_true, beq_iff_eq, not_and]
      intro h1 h2
      exact hnone e he ⟨h1, h2⟩
    rw [isAllowed, getPreference, hfind]
    exact ⟨rfl, rfl⟩

theorem claim7_witness :
    (([(⟨"d1", "p1", false, Preference.none⟩ : Eligibility)]).Pairwise
      (fun r1 r2 => ¬(r1.driverId = r2.driverId ∧ r1.playerId = r2.playerId))) ∧
    (generateCarpool "e1" [pNoSeat] attSample [edSample]
        [⟨"d1", "p1", false, Preference.none⟩] (fun _ => "x") =
      Except.ok ⟨[⟨"x", "e1", "unassigned", "p1", Direction.both⟩], ["p1"]⟩) ∧
    ((∀ r ∈ ([(⟨"d1", "p1", false, Preference.none⟩ : Eligibility)]), r.allowed = false →
      ∀ a ∈ (⟨[⟨"x", "e1", "unassigned", "p1", Direction.both⟩], ["p1"]⟩ :
          GenResult).assignments, ¬(a.driverId = "unassigned") →
        ¬(a.driverId = r.driverId ∧ a.playerId = r.playerId)) ∧
    (∀ did pid : ID,
      (∀ e ∈ ([(⟨"d1", "p1", false, Preference.none⟩ : Eligibility)]),
        ¬(e.driverId = did ∧ e.playerId = pid)) →
      isAllowed [⟨"d1", "p1", false, Preference.none⟩] did pid = true ∧
      getPreference [⟨"d1", "p1", false, Preference.none⟩] did pid = Preference.none)) :=
  ⟨by simp, by rfl,
    claim7_hard_eligibility "e1" [pNoSeat] attSample [edSample]
      [⟨"d1", "p1", false, Preference.none⟩] (fun _ => "x")
      ⟨[⟨"x", "e1", "unassigned", "p1", Direction.both⟩], ["p1"]⟩
      (by simp) (by rfl)⟩

/-- The pass emits exactly one assignment per processed candidate, in
processing order. -/
theorem foldl_playerIds (rules : List Eligibility) (eventId : ID) (ids : Nat → ID) :
    ∀ (l : List Player) (s : GenState),
      ((l.foldl (assignStep rules eventId ids) s).newAssignments).map
        (fun a => a.playerId) =
      (s.newAssignments.map (fun a => a.playerId)) ++ l.map Player.id := by
  intro l
  induction l with
  | nil => intro s; rw [List.foldl_nil, List.map_nil, List.append_nil]
  | cons p t ih =>
    intro s
    rw [List.foldl_cons, ih]
    rcases assignStep_shape rules eventId ids s p with heq | ⟨k, hk, _, heq⟩ <;>
      rw [heq] <;> simp

/-- Every assignment the pass emits carries the event id of the run. -/
theorem foldl_eventIds (rules : List Eligibility) (eventId : ID) (ids : Nat → ID) :
    ∀ (l : List Player) (s : GenState),
      (∀ a ∈ s.newAssignments, a.eventId = eventId) →
      ∀ a ∈ (l.foldl (assignStep rules eventId ids) s).newAssignments,
        a.eventId = eventId := by
  intro l
  induction l with
  | nil => intro s hs; exact hs
  | cons p t ih =>
    intro s hs
    rw [List.foldl_cons]
    apply ih
    rcases assignStep_shape rules eventId ids s p with heq | ⟨k, hk, _, heq⟩ <;>
      rw [heq] <;>
      intro a ha <;>
      dsimp only at ha <;>
      rcases List.mem_append.mp ha with ha | ha
    · exact hs a ha
    · rcases List.mem_singleton.mp ha with rfl; rfl
    · exact hs a ha
    · rcases List.mem_singleton.mp ha with rfl; rfl

/-- C9: the single-ride invariant. First conjunct: one generator run
(with distinct player ids in the roster) emits at most one assignment
per (eventId, playerId). Second conjunct: the manual override preserves
the invariant on any assignment list that already satisfies it. -/
theorem claim9_single_ride (eventId : ID) (allPlayers : List Player)
    (localAttendance : List EventAttendance) (localEventDrivers : List EventDriver)
    (rules : List Eligibility) (ids : Nat → ID) (res : GenResult)
    (hplayers : (allPlayers.map Player.id).Nodup)
    (hok : generateCarpool eventId allPlayers localAttendance localEventDrivers rules ids =
      Except.ok res) :
    res.assignments.Pairwise
      (fun a b => ¬(a.eventId = b.eventId ∧ a.playerId = b.playerId)) ∧
    (∀ (assignments : List Assignment) (evId pid target newId : ID),
      assignments.Pairwise
        (fun a b => ¬(a.eventId = b.eventId ∧ a.playerId = b.playerId)) →
      (handleDrop evId assignments pid target newId).Pairwise
        (fun a b => ¬(a.eventId = b.eventId ∧ a.playerId = b.playerId))) := by
  constructor
  · obtain ⟨-, hres⟩ := generateCarpool_ok eventId allPlayers localAttendance
      localEventDrivers rules ids res hok
    have hmap := foldl_playerIds rules eventId ids
      (sortPlayers (goingPlayers allPlayers localAttendance))
      ⟨(activeDrivers localEventDrivers).map mkBucket, [], [], 0⟩
    have hsortnd : ((sortPlayers (goingPlayers allPlayers localAttendance)).map
        Player.id).Nodup := by
      have hgo : ((goingPlayers allPlayers localAttendance).map Player.id).Nodup := by
        have hsub : ((goingPlayers allPlayers localAttendance).map Player.id).Sublist
            (allPlayers.map Player.id) := by
          rw [goingPlayers]
          exact List.Sublist.map Player.id (List.filter_sublist allPlayers)
        exact List.Nodup.sublist hsub hplayers
      have hperm : ((sortPlayers (goingPlayers allPlayers localAttendance)).map
          Player.id).Perm ((goingPlayers allPlayers localAttendance).map Player.id) :=
        List.Perm.map Player.id (List.mergeSort_perm _ childSeatLE)
      exact hperm.nodup_iff.mpr hgo
    have hnda : (res.assignments.map (fun a => a.playerId)).Nodup := by
      rw [hres]
      dsimp only
      rw [runPass, hmap]
      simpa using hsortnd
    have hpw : res.assignments.Pairwise (fun a b => a.playerId ≠ b.playerId) :=
      List.pairwise_map.mp hnda
    exact hpw.imp (fun h hcontra => h hcontra.2)
  · intro assignments evId pid target newId hpw
    rw [handleDrop]
    rw [List.pairwise_append]
    refine ⟨hpw.sublist (List.filter_sublist assignments), by simp, ?_⟩
    intro a ha b hb
    rcases List.mem_singleton.mp hb with rfl
    have hane : ¬(a.playerId = pid) := by
      have := (List.mem_filter.mp ha).2
      simpa using this
    intro hcontra
    exact hane hcontra.2

theorem claim9_witness :
    (([pNoSeat, pSeat].map Player.id).Nodup) ∧
    (generateCarpool "e1" [pNoSeat, pSeat] attSample [edSample] [] (fun _ => "x") =
      Except.ok resSample) ∧
    (resSample.assignments.Pairwise
      (fun a b => ¬(a.eventId = b.eventId ∧ a.playerId = b.playerId)) ∧
    (∀ (assignments : List Assignment) (evId pid target newId : ID),
      assignments.Pairwise
        (fun a b => ¬(a.eventId = b.eventId ∧ a.playerId = b.playerId)) →
      (handleDrop evId assignments pid target newId).Pairwise
        (fun a b => ¬(a.eventId = b.eventId ∧ a.playerId = b.playerId)))) :=
  ⟨by decide, by rfl,
    claim9_single_ride "e1" [pNoSeat, pSeat] attSample [edSample] [] (fun _ => "x")
      resSample (by decide) (by rfl)⟩

/-- An assignment with its identifier erased: the identifier is the only
field produced by the non-deterministic `generateId` (`Math.random`,
App.tsx 119). -/
structure AssignmentData where
  eventId : ID
  driverId : ID
  playerId : ID
  direction : Direction
deriving DecidableEq, Repr

def eraseId (a : Assignment) : AssignmentData :=
  ⟨a.eventId, a.driverId, a.playerId, a.direction⟩

/-- A generator result with all assignment identifiers erased. -/
def eraseResult : Except GenError GenResult →
    Except GenError (List AssignmentData × List ID)
  | Except.error e => Except.error e
  | Except.ok r => Except.ok (r.assignments.map eraseId, r.unassignedIds)

/-- One step of the pass started in two states that agree except for
already-drawn identifiers again agrees except for identifiers. -/
theorem assignStep_erase (rules : List Eligibility) (eventId : ID)
    (ids1 ids2 : Nat → ID) (s1 s2 : GenState) (p : Player)
    (hb : s1.buckets = s2.buckets) (hu : s1.unassignedIds = s2.unassignedIds)
    (hn : s1.newAssignments.map eraseId = s2.newAssignments.map eraseId) :
    (assignStep rules eventId ids1 s1 p).buckets =
      (assignStep rules eventId ids2 s2 p).buckets ∧
    (assignStep rules eventId ids1 s1 p).unassignedIds =
      (assignStep rules eventId ids2 s2 p).unassignedIds ∧
    (assignStep rules eventId ids1 s1 p).newAssignments.map eraseId =
      (assignStep rules eventId ids2 s2 p).newAssignments.map eraseId := by
  rw [assignStep, assignStep, hb, hu]
  by_cases hbest : (findBestDriver rules p s2.buckets).1 = -1
  · rw [if_pos hbest, if_pos hbest]
    refine ⟨rfl, rfl, ?_⟩
    dsimp only
    rw [List.map_append, List.map_append, hn]
    rfl
  · rw [if_neg hbest, if_neg hbest]
    cases hmatch : s2.buckets[(findBestDriver rules p s2.buckets).1.toNat]? with
    | none =>
      dsimp only
      rw [hmatch]
      exact ⟨hb, hu, hn⟩
    | some bucket =>
      dsimp only
      rw [hmatch]
      refine ⟨rfl, rfl, ?_⟩
      dsimp only
      rw [List.map_append, List.map_append, hn]
      rfl

/-- The whole pass, run from two states agreeing except for drawn
identifiers, agrees except for identifiers. -/
theorem foldl_erase (rules : List Eligibility) (eventId : ID)
    (ids1 ids2 : Nat → ID) :
    ∀ (l : List Player) (s1 s2 : GenState),
      s1.buckets = s2.buckets → s1.unassignedIds = s2.unassignedIds →
      s1.newAssignments.map eraseId = s2.newAssignments.map eraseId →
      (l.foldl (assignStep rules eventId ids1) s1).buckets =
        (l.foldl (assignStep rules eventId ids2) s2).buckets ∧
      (l.foldl (assignStep rules eventId ids1) s1).unassignedIds =
        (l.foldl (assignStep rules eventId ids2) s2).unassignedIds ∧
      (l.foldl (assignStep rules eventId ids1) s1).newAssignments.map eraseId =
        (l.foldl (assignStep rules eventId ids2) s2).newAssignments.map eraseId := by
  intro l
  induction l with
  | nil => intro s1 s2 hb hu hn; exact ⟨hb, hu, hn⟩
  | cons p t ih =>
    intro s1 s2 hb hu hn
    rw [List.foldl_cons, List.foldl_cons]
    obtain ⟨hb', hu', hn'⟩ := assignStep_erase rules eventId ids1 ids2 s1 s2 p hb hu hn
    exact ih _ _ hb' hu' hn'

/-- C2 counterexample: with the ambient `Math.random` id source made
explicit, two runs of the generator on literally identical records but
different random draws produce different (not byte-identical) outputs:
the assignment ids differ. -/
theorem claim2_counterexample :
    generateCarpool "e1" [pNoSeat] attSample [edSample] [] (fun _ => "a") ≠
    generateCarpool "e1" [pNoSeat] attSample [edSample] [] (fun _ => "b") := by
  decide

/-- C2 amended: the generator is deterministic up to the freshly drawn
assignment identifiers. For identical input records, any two runs agree
byte-for-byte after erasing the `id` field of each assignment (the
unassigned list, every driverId/playerId/eventId/direction, and the
order all coincide); with the same id draws the outputs are literally
equal. -/
theorem claim2_deterministic_modulo_ids (eventId : ID) (allPlayers : List Player)
    (localAttendance : List EventAttendance) (localEventDrivers : List EventDriver)
    (rules : List Eligibility) (ids1 ids2 : Nat → ID) :
    eraseResult (generateCarpool eventId allPlayers localAttendance
      localEventDrivers rules ids1) =
    eraseResult (generateCarpool eventId allPlayers localAttendance
      localEventDrivers rules ids2) := by
  simp only [generateCarpool]
  by_cases hlen : (activeDrivers localEventDrivers).length = 0
  · rw [if_pos hlen, if_pos hlen]
  · rw [if_neg hlen, if_neg hlen]
    obtain ⟨-, hu, hn⟩ := foldl_erase rules eventId ids1 ids2
      (sortPlayers (goingPlayers allPlayers localAttendance))
      ⟨(activeDrivers localEventDrivers).map mkBucket, [], [], 0⟩
      ⟨(activeDrivers localEventDrivers).map mkBucket, [], [], 0⟩
      rfl rfl rfl
    rw [eraseResult, eraseResult]
    dsimp only [runPass]
    rw [hu, hn]
